import Mathlib

/-!
Shallow embedding of `src/quick_cuts/aligner.py` (class `ImageWordAligner`).

Strings are modelled as `List Char`; Python `str.lower` as a character-wise
`Char.toLower` map.  Python floating point arithmetic (the `scale` and the
width-proportion computation) is modelled by exact rational arithmetic with
`Int.floor`, which agrees with Python `int(...)` truncation on the
non-negative values that occur here.  OCR, image decoding, pixel rasters,
k-means clustering and file writes are external effects: they enter the model
as explicit inputs (`ImageInput`, token lists, abstract pixel functions, the
dominant colour produced by `get_dominant_color`).
-/

deriving instance DecidableEq for Except

namespace Aligner

abbrev Str := List Char

/-- Python `str.lower`, character-wise. -/
def lowerStr (s : Str) : Str := s.map Char.toLower

/-- ASCII apostrophe, used in the "word not found" failure detail. -/
def apos : Char := Char.ofNat 39

/-- One OCR token row of `pytesseract.image_to_data` DICT output
(`aligner.py` lines 103, 108, 117-122): the token text, its bounding box and
its integer confidence. -/
structure Tok where
  text : Str
  left : Nat
  top : Nat
  width : Nat
  height : Nat
  conf : Int
deriving DecidableEq

/-- Decoded source raster (the `image` variable of `find_word_in_image`):
only its shape drives the geometry; pixel contents stay abstract. -/
structure SourceImage where
  rows : Nat
  cols : Nat
deriving DecidableEq

/-- Constructor state of `ImageWordAligner.__init__` (lines 31-49). -/
structure AlignerCfg where
  target_word : Str
  output_width : Nat
  output_height : Nat
  target_word_height : Nat
  exact_match : Bool
  background : Str
deriving DecidableEq

/-- `ImageWordAligner.__init__` stores the target word case-folded
(line 40: `self.target_word = target_word.lower()`). -/
def mkAligner (target : Str) (ow oh wh : Nat) (exact : Bool) (bg : Str) : AlignerCfg :=
  ⟨lowerStr target, ow, oh, wh, exact, bg⟩

/-- The `best_match` dictionary of lines 128-136 (the `'image'` entry is kept
alongside, see `find_word_in_image`). -/
structure WordMatch where
  x : Nat
  y : Nat
  width : Nat
  height : Nat
  center_x : Nat
  center_y : Nat
  confidence : Int
  detected_word : Str
deriving DecidableEq

/-- Match test of lines 109-114: exact mode is case-folded equality, prefix
mode is `word_lower.startswith(self.target_word)` (the stored target is
already lowered). -/
def tokMatches (cfg : AlignerCfg) (t : Tok) : Bool :=
  if cfg.exact_match then lowerStr t.text == cfg.target_word
  else cfg.target_word.isPrefixOf (lowerStr t.text)

/-- Width adjustment of lines 124-126: in prefix mode a token that differs
from the target keeps only `int(w * len(target)/len(word_lower))` of its
OCR width (floor of the exact proportion). -/
def adjWidth (cfg : AlignerCfg) (t : Tok) : Nat :=
  if cfg.exact_match = false ∧ lowerStr t.text ≠ cfg.target_word then
    t.width * cfg.target_word.length / (lowerStr t.text).length
  else t.width

/-- Lines 119-136: the dictionary recorded for a newly-best token.  Note the
centre uses the (possibly already adjusted) width `w` and Python floor
division. -/
def mkMatch (cfg : AlignerCfg) (t : Tok) : WordMatch :=
  let w := adjWidth cfg t
  ⟨t.left, t.top, w, t.height, t.left + w / 2, t.top + t.height / 2, t.conf, t.text⟩

/-- The selection loop of lines 105-137: fold over the OCR tokens carrying
`best_match` and `highest_conf` (initially `None` and `0`); a matching token
replaces the current best exactly when its confidence is strictly greater
than `highest_conf` and strictly greater than `30`. -/
def findBestAux (cfg : AlignerCfg) : List Tok → Option WordMatch → Int → Option WordMatch
  | [], best, _ => best
  | t :: ts, best, highest =>
    if tokMatches cfg t = true ∧ highest < t.conf ∧ 30 < t.conf then
      findBestAux cfg ts (some (mkMatch cfg t)) t.conf
    else
      findBestAux cfg ts best highest

/-- Input to `find_word_in_image`: `undecodable` models an image that both
decode attempts (lines 89-92) fail to read — the `ProcessingError` raised at
line 95 is caught by the function's own handler (lines 141-143);
`decoded` supplies the decoded raster together with the OCR token list that
`pytesseract.image_to_data` returns for it. -/
inductive ImageInput
  | undecodable
  | decoded (img : SourceImage) (toks : List Tok)
deriving DecidableEq

/-- `find_word_in_image` (lines 85-143): every internal exception is caught
and yields `None`; otherwise the best-match fold runs over the OCR tokens.
The source raster travels with the match (the dictionary's `'image'` key). -/
def find_word_in_image (cfg : AlignerCfg) : ImageInput → Option (WordMatch × SourceImage)
  | .undecodable => none
  | .decoded img toks => (findBestAux cfg toks none 0).map (fun m => (m, img))

/-- An RGB colour triple. -/
abbrev Color := Nat × Nat × Nat

/-- Line 150: `scale = self.target_word_height / word_data['height'] if
word_data['height'] > 0 else 1.0`. -/
def compute_scale (cfg : AlignerCfg) (h : Nat) : ℚ :=
  if 0 < h then (cfg.target_word_height : ℚ) / (h : ℚ) else 1

/-- `int(v * scale)` for the non-negative quantities of lines 152-157: floor
of the exact rational product. -/
def scaleMul (cfg : AlignerCfg) (h v : Nat) : Int :=
  ⌊(v : ℚ) * compute_scale cfg h⌋

/-- Background fill of lines 160-170: dominant uses the clustered colour,
black all-zero, transparent white RGB (alpha handled separately), any other
string falls through to white. -/
def bg_fill (cfg : AlignerCfg) (domColor : Color) : Color :=
  if cfg.background = "dominant".data then domColor
  else if cfg.background = "black".data then (0, 0, 0)
  else if cfg.background = "transparent".data then (255, 255, 255)
  else (255, 255, 255)

/-- Channel count of the canvas allocated at lines 160-170: 4 only in the
`'transparent'` branch, 3 in every other branch (including the `else` white
fall-through). -/
def canvas_channels (cfg : AlignerCfg) : Nat :=
  if cfg.background = "dominant".data then 3
  else if cfg.background = "black".data then 3
  else if cfg.background = "transparent".data then 4
  else 3

/-- The clamped crop-and-paste rectangles of lines 172-187. -/
structure PasteGeom where
  src_left : Int
  src_top : Int
  src_right : Int
  src_bottom : Int
  dst_left : Int
  dst_top : Int
  dst_right : Int
  dst_bottom : Int
  copy_width : Int
  copy_height : Int
deriving DecidableEq

/-- Lines 172-187 verbatim: canvas centre, clamped source window, clamped
destination offset, copy extents, and the destination right/bottom edges. -/
def paste_geom (W H nw nh wcx wcy : Int) : PasteGeom :=
  let ocx := W / 2
  let ocy := H / 2
  let src_left := max 0 (wcx - ocx)
  let src_top := max 0 (wcy - ocy)
  let src_right := min nw (wcx + ocx)
  let src_bottom := min nh (wcy + ocy)
  let dst_left := max 0 (ocx - wcx)
  let dst_top := max 0 (ocy - wcy)
  let copy_width := min (src_right - src_left) (W - dst_left)
  let copy_height := min (src_bottom - src_top) (H - dst_top)
  ⟨src_left, src_top, src_right, src_bottom, dst_left, dst_top,
   dst_left + copy_width, dst_top + copy_height, copy_width, copy_height⟩

/-- Result of `create_aligned_image` (lines 145-198): the canvas together
with every intermediate geometric quantity the source computes.  `alpha` and
`pix` give the final per-pixel content of the alpha channel and of the RGB
channels (fill first, then the single guarded paste). -/
structure AlignedOutput where
  out_height : Nat
  out_width : Nat
  channels : Nat
  new_width : Int
  new_height : Int
  word_center_x : Int
  word_center_y : Int
  src_left : Int
  src_top : Int
  src_right : Int
  src_bottom : Int
  dst_left : Int
  dst_top : Int
  dst_right : Int
  dst_bottom : Int
  copy_width : Int
  copy_height : Int
  pasted : Bool
  fill : Color
  alpha : Int → Int → Nat
  pix : Int → Int → Color

/-- `create_aligned_image` (lines 145-198).  `domColor` is the value
`get_dominant_color(source_image)` would return (the k-means clustering is an
external numerical routine, supplied as an input); `resizedPix` is the pixel
content of the bicubic-resized raster, also abstract.  All `int(...)`
truncations act on non-negative floats, i.e. floors. -/
def create_aligned_image (cfg : AlignerCfg) (m : WordMatch) (img : SourceImage)
    (domColor : Color) (resizedPix : Int → Int → Color) : AlignedOutput :=
  let new_width : Int := scaleMul cfg m.height img.cols
  let new_height : Int := scaleMul cfg m.height img.rows
  let wcx : Int := scaleMul cfg m.height m.center_x
  let wcy : Int := scaleMul cfg m.height m.center_y
  let g := paste_geom (cfg.output_width : Int) (cfg.output_height : Int)
    new_width new_height wcx wcy
  let pasted : Bool := decide (0 < g.copy_width) && decide (0 < g.copy_height)
  let fill : Color := bg_fill cfg domColor
  let inRect : Int → Int → Bool := fun y x =>
    decide (g.dst_top ≤ y) && decide (y < g.dst_bottom) &&
    decide (g.dst_left ≤ x) && decide (x < g.dst_right)
  { out_height := cfg.output_height
    out_width := cfg.output_width
    channels := canvas_channels cfg
    new_width := new_width
    new_height := new_height
    word_center_x := wcx
    word_center_y := wcy
    src_left := g.src_left
    src_top := g.src_top
    src_right := g.src_right
    src_bottom := g.src_bottom
    dst_left := g.dst_left
    dst_top := g.dst_top
    dst_right := g.dst_right
    dst_bottom := g.dst_bottom
    copy_width := g.copy_width
    copy_height := g.copy_height
    pasted := pasted
    fill := fill
    alpha := fun y x => if pasted && inRect y x then 255 else 0
    pix := fun y x =>
      if pasted && inRect y x then
        resizedPix (g.src_top + (y - g.dst_top)) (g.src_left + (x - g.dst_left))
      else fill }

/-- Python `s.rsplit(sep, 1)[0]` for a single-character separator: everything
before the last occurrence, or the whole string when the separator is
absent. -/
def rsplitHead (s : Str) : Str :=
  if s.contains (Char.ofNat 46) then
    ((s.reverse.dropWhile (fun c => c != Char.ofNat 46)).drop 1).reverse
  else s

/-- Output naming of lines 221-223: `"aligned_" + filename`, and in
transparent mode the extension is replaced by `.png` via
`rsplit('.', 1)[0] + '.png'`. -/
def output_filename (cfg : AlignerCfg) (filename : Str) : Str :=
  let base := "aligned_".data ++ filename
  if cfg.background = "transparent".data then
    rsplitHead base ++ ".png".data
  else base

/-- One batch result record (line 204 / 251): `(success, filename, detail)`,
where `detail` is the detected word on success and the failure reason
otherwise. -/
abbrev Entry := Bool × Str × Str

/-- The detail string returned from the in-item cancellation checks
(lines 208 and 217). -/
def cancelMsg : Str := "Processing cancelled".data

/-- The detail string of line 243: `f"Word '{self.target_word}' not found"`. -/
def notFoundMsg (cfg : AlignerCfg) : Str :=
  "Word ".data ++ [apos] ++ cfg.target_word ++ [apos] ++ " not found".data

/-- Observable events of one item, used to state in which order the progress
sink and the actual work happen. -/
inductive Ev
  | progress (i total : Nat) (file op : Str)
  | cbError (msg : Str)
  | ocr (file : Str)
  | wrote (file : Str)
deriving DecidableEq

/-- `_report_progress` (lines 60-66): the callback is invoked inside a
`try/except`; a raising callback only produces a logged-error event and
nothing else escapes. `cb` is what the caller's callback does when invoked. -/
def report_progress (cb : Except Str Unit) (i total : Nat) (file op : Str) : List Ev :=
  .progress i total file op ::
    (match cb with
     | .ok _ => []
     | .error e => [.cbError e])

/-- Result component of `process_single_image` (lines 204-249).  `flagStart`
and `flagMid` are the values `is_cancelled()` returns at the line-207 check
and at the line-216 check (the latter is only reached when a word was
found).  Composition and the file write are modelled as succeeding; a
raising write would yield a caught per-item error entry (lines 245-249),
orthogonal to the claims stated here.  Note the result never depends on what
the progress callback does. -/
def process_single_result (cfg : AlignerCfg) (flagStart flagMid : Bool)
    (inp : ImageInput) (name : Str) : Entry :=
  if flagStart then (false, name, cancelMsg)
  else
    match find_word_in_image cfg inp with
    | some (m, _) =>
      if flagMid then (false, name, cancelMsg)
      else (true, name, m.detected_word)
    | none => (false, name, notFoundMsg cfg)

/-- `process_single_image` with its event trace: the progress sink fires at
line 211, before the OCR call of line 213 and before any write. -/
def process_single_trace (cfg : AlignerCfg) (flagStart flagMid : Bool)
    (cb : Except Str Unit) (inp : ImageInput) (name : Str) (i total : Nat) :
    Entry × List Ev :=
  (process_single_result cfg flagStart flagMid inp name,
   if flagStart then []
   else
     report_progress cb i total name ("Processing ".data ++ name) ++
     [.ocr name] ++
     (match find_word_in_image cfg inp with
      | some _ => if flagMid then [] else [.wrote (output_filename cfg name)]
      | none => []))

/-- The loop of `process_images` (lines 261-275).  `flag` gives the value of
the shared cancellation event at successive poll points (`t` counts polls:
the loop check of line 264, then the in-item checks of lines 207 and 216);
`fault` optionally names the iteration whose loop infrastructure
(append/sleep) raises, modelling the outer `except` of lines 272-275, which
re-raises and discards the accumulated results. -/
def process_images_go (cfg : AlignerCfg) (flag : Nat → Bool) (cb : Except Str Unit)
    (fault : Option Nat) :
    List (ImageInput × Str) → Nat → Nat → Nat → Except Str (List Entry)
  | [], _, _, _ => .ok []
  | (inp, name) :: rest, t, idx, total =>
    if flag t then .ok []
    else if fault = some idx then .error "Processing failed".data
    else
      let r := process_single_trace cfg (flag (t + 1)) (flag (t + 2)) cb inp name
        (idx + 1) total
      let tNext :=
        if flag (t + 1) = false ∧ (find_word_in_image cfg inp).isSome then t + 3
        else t + 2
      match process_images_go cfg flag cb fault rest tNext (idx + 1) total with
      | .ok l => .ok (r.1 :: l)
      | .error e => .error e

/-- `process_images` (lines 251-282): runs the loop from poll point 0 and
item index 0; on a fatal outer fault the `ProcessingError` of line 275
escapes and the caller receives no result list. -/
def process_images (cfg : AlignerCfg) (flag : Nat → Bool) (cb : Except Str Unit)
    (fault : Option Nat) (items : List (ImageInput × Str)) : Except Str (List Entry) :=
  process_images_go cfg flag cb fault items 0 0 items.length

/-- The aggregate counts of lines 277-278: `successful` and
`len(results) - successful`. -/
def batch_counts (l : List Entry) : Nat × Nat :=
  (l.countP (fun r => r.1), l.length - l.countP (fun r => r.1))

/-- Cancellation-free processing of one item: what an item contributes to the
result list when no check point observes the flag. -/
def runFull (cfg : AlignerCfg) (it : ImageInput × Str) : Entry :=
  process_single_result cfg false false it.1 it.2

/-- OpenCV threshold-type constants (`cv2.THRESH_BINARY`,
`cv2.THRESH_BINARY_INV`, `cv2.THRESH_OTSU`). -/
def THRESH_BINARY : Nat := 0

/-- `cv2.THRESH_BINARY_INV`. -/
def THRESH_BINARY_INV : Nat := 1

/-- `cv2.THRESH_OTSU` (a flag bit, not a type). -/
def THRESH_OTSU : Nat := 8

/-- One OpenCV raster operation with its parameters. -/
inductive PreOp
  | cvtColorBGR2GRAY
  | bilateralFilter (d sigmaColor sigmaSpace : Nat)
  | threshold (thresh maxval flags : Nat)
deriving DecidableEq

/-- The OCR preprocessing of lines 97-101: grayscale conversion, then
`bilateralFilter(gray, 9, 75, 75)`, then
`threshold(gray, 0, 255, THRESH_BINARY + THRESH_OTSU)`. -/
def ocr_preprocessing : List PreOp :=
  [.cvtColorBGR2GRAY, .bilateralFilter 9 75 75,
   .threshold 0 255 (THRESH_BINARY + THRESH_OTSU)]

/-- The thresholding type selected by a flag word: its low three bits
(`cv2.THRESH_MASK = 7`); `THRESH_OTSU` only switches on automatic threshold
selection. -/
def thresholdTypeOf (flags : Nat) : Nat := flags % 8

/-- Per-pixel semantics of `cv2.threshold` for the binary types: plain
binary maps above-threshold pixels to `maxval` and the rest to 0, inverted
binary does the opposite. -/
def applyThresholdPixel (flags t maxval v : Nat) : Nat :=
  if thresholdTypeOf flags = THRESH_BINARY then (if t < v then maxval else 0)
  else if thresholdTypeOf flags = THRESH_BINARY_INV then (if t < v then 0 else maxval)
  else v

/-- The pipeline claim C6 describes, stated in its own words for comparison:
identical except that the binarization is inverted
(`THRESH_BINARY_INV`-style, "binarization with inversion"). -/
def claimed_ocr_preprocessing : List PreOp :=
  [.cvtColorBGR2GRAY, .bilateralFilter 9 75 75,
   .threshold 0 255 (THRESH_BINARY_INV + THRESH_OTSU)]

/-- Invariant of the selection loop after some prefix of the token list has
been processed: with no best match yet, `highest_conf` is still 0 and every
matching token seen so far had confidence at most 30; with a best match, the
prefix splits around the selected token `t`, whose confidence is above 30
and equals `highest_conf`, every matching token before `t` has strictly
smaller confidence and every matching token after `t` has confidence at most
that of `t`. -/
def SelInv (cfg : AlignerCfg) (processed : List Tok) :
    Option WordMatch → Int → Prop
  | none, highest =>
    highest = 0 ∧ ∀ u ∈ processed, tokMatches cfg u = true → u.conf ≤ 30
  | some m, highest =>
    ∃ p₁ t p₂, processed = p₁ ++ t :: p₂ ∧ tokMatches cfg t = true ∧
      30 < t.conf ∧ highest = t.conf ∧ m = mkMatch cfg t ∧
      (∀ u ∈ p₁, tokMatches cfg u = true → u.conf < t.conf) ∧
      (∀ u ∈ p₂, tokMatches cfg u = true → u.conf ≤ t.conf)

/-! ## Supporting lemmas -/

/-- Character-wise case folding preserves length, so the code's
`len(word_lower)` equals the token's own length. -/
theorem lowerStr_length (s : Str) : (lowerStr s).length = s.length := by
  simp [lowerStr]

/-- Evaluation of the scaled-and-truncated quantities: with a positive
matched height the floor of the exact rational product is plain natural
division, with height 0 the scale is 1 and the value is unchanged. -/
theorem scaleMul_eval (cfg : AlignerCfg) (h v : Nat) :
    scaleMul cfg h v =
      if 0 < h then ((v * cfg.target_word_height / h : Nat) : Int)
      else (v : Int) := by
  unfold scaleMul compute_scale
  split
  · rw [mul_div_assoc']
    have : ((v : ℚ) * (cfg.target_word_height : ℚ)) =
        ((v * cfg.target_word_height : Nat) : ℚ) := by push_cast; ring
    rw [this, Rat.floor_natCast_div_natCast]
    exact (Int.ofNat_div _ _).symm
  · simp

/-- The selection loop preserves `SelInv`: starting from a state that
satisfies the invariant for some processed prefix, running the fold over the
remaining tokens yields a state satisfying the invariant for the extended
prefix (with some final `highest_conf`). -/
theorem findBestAux_inv (cfg : AlignerCfg) :
    ∀ (rest processed : List Tok) (best : Option WordMatch) (highest : Int),
      SelInv cfg processed best highest →
      ∃ h', SelInv cfg (processed ++ rest) (findBestAux cfg rest best highest) h' := by
  intro rest
  induction rest with
  | nil =>
    intro processed best highest h
    exact ⟨highest, by simpa [findBestAux] using h⟩
  | cons t ts ih =>
    intro processed best highest h
    rw [findBestAux]
    split
    · rename_i hc
      obtain ⟨hm, hgt, h30⟩ := hc
      have hstep : SelInv cfg (processed ++ [t]) (some (mkMatch cfg t)) t.conf := by
        refine ⟨processed, t, [], by simp, hm, h30, rfl, rfl, ?_, by simp⟩
        intro u hu hum
        cases best with
        | none =>
          obtain ⟨-, hall⟩ := h
          have := hall u hu hum
          omega
        | some m =>
          obtain ⟨p₁, t₀, p₂, hsplit, -, -, hh, -, hlt, hle⟩ := h
          subst hsplit
          rcases List.mem_append.1 hu with hu1 | hu2
          · have := hlt u hu1 hum
            omega
          · rcases List.mem_cons.1 hu2 with rfl | hu3
            · omega
            · have := hle u hu3 hum
              omega
      have hres := ih (processed ++ [t]) (some (mkMatch cfg t)) t.conf hstep
      simpa using hres
    · rename_i hc
      have hstep : SelInv cfg (processed ++ [t]) best highest := by
        cases best with
        | none =>
          obtain ⟨hh0, hall⟩ := h
          refine ⟨hh0, ?_⟩
          intro u hu hum
          rcases List.mem_append.1 hu with hu1 | hu2
          · exact hall u hu1 hum
          · rcases List.mem_cons.1 hu2 with rfl | hu3
            · subst hh0
              by_contra hgt
              exact hc ⟨hum, by omega, by omega⟩
            · simp at hu3
        | some m =>
          obtain ⟨p₁, t₀, p₂, hsplit, hm₀, h30₀, hh, hmk, hlt, hle⟩ := h
          refine ⟨p₁, t₀, p₂ ++ [t], by simp [hsplit], hm₀, h30₀, hh, hmk, hlt, ?_⟩
          intro u hu hum
          rcases List.mem_append.1 hu with hu1 | hu2
          · exact hle u hu1 hum
          · rcases List.mem_cons.1 hu2 with rfl | hu3
            · subst hh
              by_contra hgt
              exact hc ⟨hum, by omega, by omega⟩
            · simp at hu3
      have hres := ih (processed ++ [t]) best highest hstep
      simpa using hres

/-- Characterization of `find_word_in_image` on a decodable image: it
returns `none` exactly when no matching token has confidence above 30. -/
theorem find_word_none_iff (cfg : AlignerCfg) (img : SourceImage) (toks : List Tok) :
    find_word_in_image cfg (.decoded img toks) = none ↔
      ∀ u ∈ toks, tokMatches cfg u = true → u.conf ≤ 30 := by
  have h0 : SelInv cfg [] (none : Option WordMatch) 0 := ⟨rfl, by simp⟩
  obtain ⟨h', hinv⟩ := findBestAux_inv cfg toks [] none 0 h0
  simp only [List.nil_append] at hinv
  constructor
  · intro hnone
    cases hres : findBestAux cfg toks none 0 with
    | none =>
      rw [hres] at hinv
      exact hinv.2
    | some m =>
      simp [find_word_in_image, hres] at hnone
  · intro hall
    cases hres : findBestAux cfg toks none 0 with
    | none => simp [find_word_in_image, hres]
    | some m =>
      rw [hres] at hinv
      obtain ⟨p₁, t, p₂, hsplit, hm, h30, -⟩ := hinv
      have ht : t ∈ toks := by
        rw [hsplit]
        simp
      have := hall t ht hm
      omega

/-- Characterization of a successful `find_word_in_image`: the returned
match is built from a token that matches the mode, has confidence above 30,
dominates every matching token (strictly dominating every earlier one), and
the raster returned is the decoded source. -/
theorem find_word_some_char (cfg : AlignerCfg) (img : SourceImage) (toks : List Tok)
    (m : WordMatch) (img' : SourceImage)
    (hsome : find_word_in_image cfg (.decoded img toks) = some (m, img')) :
    img' = img ∧
    ∃ p₁ t p₂, toks = p₁ ++ t :: p₂ ∧ tokMatches cfg t = true ∧ 30 < t.conf ∧
      m = mkMatch cfg t ∧
      (∀ u ∈ p₁, tokMatches cfg u = true → u.conf < t.conf) ∧
      (∀ u ∈ p₂, tokMatches cfg u = true → u.conf ≤ t.conf) := by
  have h0 : SelInv cfg [] (none : Option WordMatch) 0 := ⟨rfl, by simp⟩
  obtain ⟨h', hinv⟩ := findBestAux_inv cfg toks [] none 0 h0
  simp only [List.nil_append] at hinv
  cases hres : findBestAux cfg toks none 0 with
  | none => simp [find_word_in_image, hres] at hsome
  | some m₀ =>
    simp only [find_word_in_image, hres, Option.map_some, Option.some.injEq,
      Prod.mk.injEq] at hsome
    obtain ⟨rfl, rfl⟩ := hsome
    rw [hres] at hinv
    obtain ⟨p₁, t, p₂, hsplit, hm, h30, -, hmk, hlt, hle⟩ := hinv
    exact ⟨rfl, p₁, t, p₂, hsplit, hm, h30, hmk, hlt, hle⟩

/-! ## Claims -/

/-- The canvas channel count is 4 exactly in transparent mode and 3 in
every other mode. -/
theorem canvas_channels_eq (cfg : AlignerCfg) :
    canvas_channels cfg =
      if cfg.background = "transparent".data then 4 else 3 := by
  unfold canvas_channels
  by_cases h1 : cfg.background = "dominant".data
  · rw [if_pos h1, h1]
    decide
  · rw [if_neg h1]
    by_cases h2 : cfg.background = "black".data
    · rw [if_pos h2, h2]
      decide
    · rw [if_neg h2]

/-- The clamped rectangles never leave either raster: the destination
rectangle stays inside `[0,W) x [0,H)` and the source crop stays inside the
resized raster `[0,nw) x [0,nh)`, for any centre position whatsoever. -/
theorem paste_geom_bounds (W H nw nh wcx wcy : Int) :
    0 ≤ (paste_geom W H nw nh wcx wcy).dst_left ∧
    0 ≤ (paste_geom W H nw nh wcx wcy).dst_top ∧
    (paste_geom W H nw nh wcx wcy).dst_right ≤ W ∧
    (paste_geom W H nw nh wcx wcy).dst_bottom ≤ H ∧
    0 ≤ (paste_geom W H nw nh wcx wcy).src_left ∧
    0 ≤ (paste_geom W H nw nh wcx wcy).src_top ∧
    (paste_geom W H nw nh wcx wcy).src_left +
      (paste_geom W H nw nh wcx wcy).copy_width ≤ nw ∧
    (paste_geom W H nw nh wcx wcy).src_top +
      (paste_geom W H nw nh wcx wcy).copy_height ≤ nh := by
  dsimp only [paste_geom]
  refine ⟨?_, ?_, ?_, ?_, ?_, ?_, ?_, ?_⟩ <;> omega

/-- A conjunction of positivity tests is false as soon as one side fails. -/
theorem decide_pos_and_eq_false (a b : Int) (h : a ≤ 0 ∨ b ≤ 0) :
    (decide (0 < a) && decide (0 < b)) = false := by
  simp only [Bool.and_eq_false_iff, decide_eq_false_iff_not, not_lt]
  omega

/-- Claim C1: for every `WordMatch` and output size, the canvas produced by
`create_aligned_image` has exactly the configured dimensions, has 4 channels
iff the background is transparent and 3 otherwise, the paste rectangle is
contained in the canvas bounds, the cropped source rectangle is contained in
the resized image bounds, and when the computed copy width or height is not
positive no paste occurs and every pixel keeps the plain background fill. -/
theorem C1_canvas_geometry (cfg : AlignerCfg) (m : WordMatch) (img : SourceImage)
    (domColor : Color) (resizedPix : Int → Int → Color) (o : AlignedOutput)
    (ho : o = create_aligned_image cfg m img domColor resizedPix) :
    o.out_width = cfg.output_width ∧
    o.out_height = cfg.output_height ∧
    o.channels = (if cfg.background = "transparent".data then 4 else 3) ∧
    (o.pasted = true →
      0 ≤ o.dst_left ∧ 0 ≤ o.dst_top ∧
      o.dst_right ≤ (cfg.output_width : Int) ∧
      o.dst_bottom ≤ (cfg.output_height : Int) ∧
      0 ≤ o.src_left ∧ 0 ≤ o.src_top ∧
      o.src_left + o.copy_width ≤ o.new_width ∧
      o.src_top + o.copy_height ≤ o.new_height) ∧
    ((o.copy_width ≤ 0 ∨ o.copy_height ≤ 0) →
      o.pasted = false ∧ ∀ y x : Int, o.pix y x = o.fill ∧ o.alpha y x = 0) := by
  subst ho
  dsimp only [create_aligned_image]
  refine ⟨rfl, rfl, canvas_channels_eq cfg, ?_, ?_⟩
  · intro _
    exact paste_geom_bounds _ _ _ _ _ _
  · intro hle
    have h1 := decide_pos_and_eq_false _ _ hle
    refine ⟨h1, ?_⟩
    intro y x
    rw [h1]
    simp

/-- Claim C8: for a matched box height of 0, `create_aligned_image` uses
scale 1.0 instead of dividing, so the scale computation never divides by the
height 0; for every positive height the scale is
`targetHeight / matchedBoxHeight`. -/
theorem C8_zero_height_guard (cfg : AlignerCfg) :
    compute_scale cfg 0 = 1 ∧
    ∀ h : Nat, 0 < h →
      compute_scale cfg h = (cfg.target_word_height : ℚ) / (h : ℚ) := by
  constructor
  · simp [compute_scale]
  · intro h hh
    simp [compute_scale, hh]

/-- Witness for C8 at a concrete aligner: height 5 with target height 100
gives scale 20, and height 0 gives scale 1. -/
theorem C8_zero_height_guard_witness :
    compute_scale (mkAligner "warp".data 1920 1080 100 true "white".data) 5 = 20 ∧
    compute_scale (mkAligner "warp".data 1920 1080 100 true "white".data) 0 = 1 := by
  have h := C8_zero_height_guard (mkAligner "warp".data 1920 1080 100 true "white".data)
  refine ⟨?_, h.1⟩
  rw [h.2 5 (by norm_num)]
  norm_num [mkAligner]

/-- Claim C6 counterexample: the code's thresholding call uses
`THRESH_BINARY + THRESH_OTSU`, whose type bits select plain (non-inverted)
binary thresholding, so the pipeline differs from the claimed
inverted-binarization pipeline; on a pixel of value 200 with threshold 100
the code's call produces 255 where the claimed inverted call would produce
0. -/
theorem C6_preprocessing_counterexample :
    ocr_preprocessing ≠ claimed_ocr_preprocessing ∧
    thresholdTypeOf (THRESH_BINARY + THRESH_OTSU) = THRESH_BINARY ∧
    thresholdTypeOf (THRESH_BINARY + THRESH_OTSU) ≠ THRESH_BINARY_INV ∧
    applyThresholdPixel (THRESH_BINARY + THRESH_OTSU) 100 255 200 = 255 ∧
    applyThresholdPixel (THRESH_BINARY_INV + THRESH_OTSU) 100 255 200 = 0 := by
  refine ⟨?_, by decide, by decide, by decide, by decide⟩
  decide

/-- Claim C6 as amended: the OCR preprocessing pipeline is grayscale
conversion, then edge-preserving smoothing with kernel diameter 9 and
colour/space sigma 75, then automatic global Otsu-style binarization WITHOUT
inversion: pixels above the selected threshold map to 255 and the rest to
0. -/
theorem C6_preprocessing (t v : Nat) :
    ocr_preprocessing =
      [PreOp.cvtColorBGR2GRAY, PreOp.bilateralFilter 9 75 75,
       PreOp.threshold 0 255 (THRESH_BINARY + THRESH_OTSU)] ∧
    applyThresholdPixel (THRESH_BINARY + THRESH_OTSU) t 255 v =
      if t < v then 255 else 0 := by
  refine ⟨rfl, ?_⟩
  simp [applyThresholdPixel, thresholdTypeOf, THRESH_BINARY, THRESH_OTSU]

/-- Claim C3: in prefix mode a selected token differing (case-folded) from
the target gets width `floor(originalWidth * len(target) / len(token))`; in
exact mode, or when the token equals the target, the width is unchanged. -/
theorem C3_partial_width (cfg : AlignerCfg) (t : Tok) :
    (cfg.exact_match = false → lowerStr t.text ≠ cfg.target_word →
      (mkMatch cfg t).width =
        t.width * cfg.target_word.length / t.text.length) ∧
    (cfg.exact_match = true → (mkMatch cfg t).width = t.width) ∧
    (lowerStr t.text = cfg.target_word → (mkMatch cfg t).width = t.width) := by
  refine ⟨?_, ?_, ?_⟩
  · intro he hne
    simp [mkMatch, adjWidth, he, hne, lowerStr_length]
  · intro he
    simp [mkMatch, adjWidth, he]
  · intro heq
    simp [mkMatch, adjWidth, heq]

/-- Witness for C3: target "warp" against token "Warpdotdev" of OCR width
250 in prefix mode yields width `250 * 4 / 10 = 100`; the same token in
exact mode keeps width 250. -/
theorem C3_partial_width_witness :
    (mkMatch (mkAligner "warp".data 1920 1080 100 false "white".data)
      ⟨"Warpdotdev".data, 7, 11, 250, 40, 80⟩).width = 100 ∧
    (mkMatch (mkAligner "warp".data 1920 1080 100 true "white".data)
      ⟨"Warpdotdev".data, 7, 11, 250, 40, 80⟩).width = 250 := by
  constructor
  · have h := (C3_partial_width (mkAligner "warp".data 1920 1080 100 false "white".data)
      ⟨"Warpdotdev".data, 7, 11, 250, 40, 80⟩).1 rfl (by decide)
    rw [h]
    decide
  · exact (C3_partial_width (mkAligner "warp".data 1920 1080 100 true "white".data)
      ⟨"Warpdotdev".data, 7, 11, 250, 40, 80⟩).2.1 rfl

/-- Witness for C1: a concrete paste (target height 2, matched height 4,
12x10 source, 8x6 canvas) satisfies all rectangle bounds, and a concrete
match centred far beyond a tiny 3x3 source yields a non-positive copy width,
hence no paste. -/
theorem C1_canvas_geometry_witness :
    ((0 : Int) ≤ (create_aligned_image (mkAligner "warp".data 8 6 2 false "white".data)
        ⟨0, 0, 4, 4, 3, 2, 50, "w".data⟩ ⟨10, 12⟩ (0, 0, 0)
        (fun _ _ => (0, 0, 0))).dst_left ∧
      (create_aligned_image (mkAligner "warp".data 8 6 2 false "white".data)
        ⟨0, 0, 4, 4, 3, 2, 50, "w".data⟩ ⟨10, 12⟩ (0, 0, 0)
        (fun _ _ => (0, 0, 0))).dst_right ≤ 8) ∧
    (create_aligned_image (mkAligner "warp".data 4 4 2 false "white".data)
        ⟨0, 0, 4, 2, 10, 1, 50, "w".data⟩ ⟨3, 3⟩ (0, 0, 0)
        (fun _ _ => (0, 0, 0))).pasted = false := by
  have h1 := C1_canvas_geometry (mkAligner "warp".data 8 6 2 false "white".data)
    ⟨0, 0, 4, 4, 3, 2, 50, "w".data⟩ ⟨10, 12⟩ (0, 0, 0) (fun _ _ => (0, 0, 0)) _ rfl
  have hb := h1.2.2.2.1 (by simp [create_aligned_image, paste_geom, scaleMul_eval, mkAligner])
  have h2 := C1_canvas_geometry (mkAligner "warp".data 4 4 2 false "white".data)
    ⟨0, 0, 4, 2, 10, 1, 50, "w".data⟩ ⟨3, 3⟩ (0, 0, 0) (fun _ _ => (0, 0, 0)) _ rfl
  have hn := h2.2.2.2.2
    (Or.inl (by simp [create_aligned_image, paste_geom, scaleMul_eval, mkAligner]))
  exact ⟨⟨hb.1, hb.2.2.1⟩, hn.1⟩

/-- Claim C2: `find_word_in_image` returns `none` exactly when no token
matching the mode has confidence strictly above 30; when it returns a match,
the match is built (`mkMatch`) from a matching token with confidence above
30 whose confidence is at least that of every matching token and strictly
greater than that of every earlier matching token (so ties keep the
first-encountered token). -/
theorem C2_best_token (cfg : AlignerCfg) (img : SourceImage) (toks : List Tok) :
    (find_word_in_image cfg (.decoded img toks) = none ↔
      ∀ u ∈ toks, tokMatches cfg u = true → u.conf ≤ 30) ∧
    (∀ m img', find_word_in_image cfg (.decoded img toks) = some (m, img') →
      ∃ p₁ t p₂, toks = p₁ ++ t :: p₂ ∧ tokMatches cfg t = true ∧ 30 < t.conf ∧
        m = mkMatch cfg t ∧
        (∀ u ∈ p₁, tokMatches cfg u = true → u.conf < t.conf) ∧
        (∀ u ∈ p₂, tokMatches cfg u = true → u.conf ≤ t.conf)) :=
  ⟨find_word_none_iff cfg img toks,
   fun m img' hsome =>
     match find_word_some_char cfg img toks m img' hsome with
     | ⟨_, p₁, t, p₂, hsplit, hm, h30, hmk, hlt, hle⟩ =>
       ⟨p₁, t, p₂, hsplit, hm, h30, hmk, hlt, hle⟩⟩

/-- Witness for C2: two exact-mode tokens "WARP" and "Warp", both with
confidence 50; the selection keeps the first-encountered one. -/
theorem C2_best_token_witness :
    find_word_in_image (mkAligner "warp".data 1920 1080 100 true "white".data)
      (.decoded ⟨10, 20⟩ [⟨"WARP".data, 5, 6, 40, 20, 50⟩, ⟨"Warp".data, 9, 9, 41, 21, 50⟩]) =
      some (mkMatch (mkAligner "warp".data 1920 1080 100 true "white".data)
        ⟨"WARP".data, 5, 6, 40, 20, 50⟩, ⟨10, 20⟩) ∧
    ∃ p₁ t p₂,
      ([⟨"WARP".data, 5, 6, 40, 20, 50⟩, ⟨"Warp".data, 9, 9, 41, 21, 50⟩] : List Tok) =
        p₁ ++ t :: p₂ ∧
      tokMatches (mkAligner "warp".data 1920 1080 100 true "white".data) t = true ∧
      30 < t.conf ∧
      mkMatch (mkAligner "warp".data 1920 1080 100 true "white".data)
        ⟨"WARP".data, 5, 6, 40, 20, 50⟩ =
        mkMatch (mkAligner "warp".data 1920 1080 100 true "white".data) t ∧
      (∀ u ∈ p₁, tokMatches (mkAligner "warp".data 1920 1080 100 true "white".data) u =
        true → u.conf < t.conf) ∧
      (∀ u ∈ p₂, tokMatches (mkAligner "warp".data 1920 1080 100 true "white".data) u =
        true → u.conf ≤ t.conf) := by
  have h1 : find_word_in_image (mkAligner "warp".data 1920 1080 100 true "white".data)
      (.decoded ⟨10, 20⟩ [⟨"WARP".data, 5, 6, 40, 20, 50⟩, ⟨"Warp".data, 9, 9, 41, 21, 50⟩]) =
      some (mkMatch (mkAligner "warp".data 1920 1080 100 true "white".data)
        ⟨"WARP".data, 5, 6, 40, 20, 50⟩, ⟨10, 20⟩) := by
    decide
  exact ⟨h1, (C2_best_token (mkAligner "warp".data 1920 1080 100 true "white".data)
    ⟨10, 20⟩ _).2 _ _ h1⟩

/-- Claim C10: `find_word_in_image` yields `none` for an undecodable image
(the internally raised decode error is caught), and the batch entry recorded
for an undecodable image is the same `(false, name, Word not-found)` entry
as for a decodable image none of whose tokens matches above the confidence
floor — the two failure kinds are indistinguishable in the result list. -/
theorem C10_decode_failure_indistinguishable (cfg : AlignerCfg) (name : Str)
    (img : SourceImage) (toks : List Tok)
    (hall : ∀ u ∈ toks, tokMatches cfg u = true → u.conf ≤ 30) :
    find_word_in_image cfg .undecodable = none ∧
    process_single_result cfg false false .undecodable name =
      (false, name, notFoundMsg cfg) ∧
    process_single_result cfg false false (.decoded img toks) name =
      process_single_result cfg false false .undecodable name := by
  refine ⟨rfl, rfl, ?_⟩
  have hn := (find_word_none_iff cfg img toks).2 hall
  simp only [process_single_result, hn]
  rfl

/-- Witness for C10: an undecodable image and an image whose only token has
high confidence but does not match produce identical failure entries. -/
theorem C10_decode_failure_indistinguishable_witness :
    process_single_result (mkAligner "warp".data 1920 1080 100 true "white".data)
      false false (.decoded ⟨4, 4⟩ [⟨"other".data, 1, 1, 9, 9, 80⟩]) "a.jpg".data =
      process_single_result (mkAligner "warp".data 1920 1080 100 true "white".data)
        false false .undecodable "a.jpg".data :=
  (C10_decode_failure_indistinguishable
    (mkAligner "warp".data 1920 1080 100 true "white".data) "a.jpg".data
    ⟨4, 4⟩ [⟨"other".data, 1, 1, 9, 9, 80⟩] (by decide)).2.2

/-- `rsplit('.', 1)[0]` distributes over the dot-free `"aligned_"` prefix:
the last dot of `"aligned_" + f`, if any, lies in `f`. -/
theorem rsplitHead_append_aligned (f : Str) :
    rsplitHead ("aligned_".data ++ f) = "aligned_".data ++ rsplitHead f := by
  by_cases hf : Char.ofNat 46 ∈ f
  · have hc1 : ("aligned_".data ++ f).contains (Char.ofNat 46) = true := by
      simp [hf]
    have hc2 : f.contains (Char.ofNat 46) = true := by simp [hf]
    unfold rsplitHead
    rw [if_pos hc1, if_pos hc2, List.reverse_append, List.dropWhile_append]
    have hnil : (f.reverse.dropWhile fun c => c != Char.ofNat 46) ≠ [] := by
      rw [Ne, List.dropWhile_eq_nil_iff]
      push_neg
      exact ⟨Char.ofNat 46, by simp [hf], by simp⟩
    rw [if_neg (by simpa [List.isEmpty_iff] using hnil)]
    have hdrop : ((f.reverse.dropWhile fun c => c != Char.ofNat 46) ++
        "aligned_".data.reverse).drop 1 =
        (f.reverse.dropWhile fun c => c != Char.ofNat 46).drop 1 ++
          "aligned_".data.reverse := by
      cases hx : f.reverse.dropWhile fun c => c != Char.ofNat 46 with
      | nil => exact absurd hx hnil
      | cons a tl => simp
    rw [hdrop, List.reverse_append, List.reverse_reverse]
  · unfold rsplitHead
    rw [if_neg (by simp [hf]), if_neg (by simp [hf])]

/-- Claim C5: in transparent mode the output filename is `"aligned_"` plus
the original filename with its extension replaced by `.png`, the canvas has
4 channels, and the alpha channel is 255 exactly on the pasted rectangle and
0 everywhere else. -/
theorem C5_transparent_output (cfg : AlignerCfg)
    (hbg : cfg.background = "transparent".data) (filename : Str) (m : WordMatch)
    (img : SourceImage) (domColor : Color) (resizedPix : Int → Int → Color)
    (o : AlignedOutput) (ho : o = create_aligned_image cfg m img domColor resizedPix) :
    output_filename cfg filename =
      "aligned_".data ++ rsplitHead filename ++ ".png".data ∧
    o.channels = 4 ∧
    ∀ y x : Int, o.alpha y x =
      if o.pasted = true ∧ o.dst_top ≤ y ∧ y < o.dst_bottom ∧
          o.dst_left ≤ x ∧ x < o.dst_right
      then 255 else 0 := by
  subst ho
  refine ⟨?_, ?_, ?_⟩
  · unfold output_filename
    rw [if_pos hbg, rsplitHead_append_aligned, List.append_assoc]
  · have h := canvas_channels_eq cfg
    rw [if_pos hbg] at h
    exact h
  · intro y x
    dsimp only [create_aligned_image]
    simp only [Bool.and_eq_true, decide_eq_true_eq, and_assoc]

/-- Witness for C5: a match from `"photo.jpg"` is written as
`"aligned_photo.png"` and the canvas carries 4 channels. -/
theorem C5_transparent_output_witness :
    output_filename (mkAligner "warp".data 8 6 2 true "transparent".data)
      "photo.jpg".data = "aligned_photo.png".data ∧
    (create_aligned_image (mkAligner "warp".data 8 6 2 true "transparent".data)
      ⟨0, 0, 4, 4, 3, 2, 50, "w".data⟩ ⟨10, 12⟩ (0, 0, 0)
      (fun _ _ => (0, 0, 0))).channels = 4 := by
  have h := C5_transparent_output (mkAligner "warp".data 8 6 2 true "transparent".data)
    rfl "photo.jpg".data ⟨0, 0, 4, 4, 3, 2, 50, "w".data⟩ ⟨10, 12⟩ (0, 0, 0)
    (fun _ _ => (0, 0, 0)) _ rfl
  refine ⟨?_, h.2.1⟩
  rw [h.1]
  decide

/-- Once the loop-level check observes the flag, the loop breaks at once and
contributes nothing further. -/
theorem process_images_go_stops (cfg : AlignerCfg) (flag : Nat → Bool)
    (cb : Except Str Unit) (fault : Option Nat) :
    ∀ (items : List (ImageInput × Str)) (t idx total : Nat), flag t = true →
      process_images_go cfg flag cb fault items t idx total = .ok [] := by
  intro items t idx total h
  cases items with
  | nil => rfl
  | cons it rest =>
    obtain ⟨inp, name⟩ := it
    simp only [process_images_go]
    rw [if_pos h]

/-- One unfolding of the loop body when the loop-level check passes and no
outer fault fires at this iteration. -/
theorem process_images_go_cons (cfg : AlignerCfg) (flag : Nat → Bool)
    (cb : Except Str Unit) (inp : ImageInput) (name : Str)
    (rest : List (ImageInput × Str)) (t idx total : Nat) (h0 : flag t = false) :
    process_images_go cfg flag cb none ((inp, name) :: rest) t idx total =
      match process_images_go cfg flag cb none rest
          (if flag (t + 1) = false ∧ (find_word_in_image cfg inp).isSome
            then t + 3 else t + 2) (idx + 1) total with
      | .ok l =>
        .ok (process_single_result cfg (flag (t + 1)) (flag (t + 2)) inp name :: l)
      | .error e => .error e := by
  simp only [process_images_go, process_single_trace]
  rw [if_neg (by simp [h0]), if_neg (by simp)]

/-- Shape of every fault-free run under a monotone cancellation flag: the
result list is the full processing of a prefix of the input, possibly closed
by a single `(false, name, "Processing cancelled")` entry for the first item
whose in-item check observed the flag; everything beyond is absent. -/
theorem process_images_go_shape (cfg : AlignerCfg) (flag : Nat → Bool)
    (cb : Except Str Unit)
    (hmono : ∀ i j : Nat, i ≤ j → flag i = true → flag j = true) :
    ∀ (items : List (ImageInput × Str)) (t idx total : Nat),
      ∃ k, k ≤ items.length ∧
        (process_images_go cfg flag cb none items t idx total =
            .ok ((items.take k).map (runFull cfg)) ∨
          ∃ inpk namek rest', items.drop k = (inpk, namek) :: rest' ∧
            process_images_go cfg flag cb none items t idx total =
              .ok ((items.take k).map (runFull cfg) ++ [(false, namek, cancelMsg)])) := by
  intro items
  induction items with
  | nil =>
    intro t idx total
    exact ⟨0, by simp, Or.inl rfl⟩
  | cons it rest ih =>
    obtain ⟨inp, name⟩ := it
    intro t idx total
    by_cases h0 : flag t = true
    · refine ⟨0, by simp, Or.inl ?_⟩
      rw [process_images_go_stops cfg flag cb none _ t idx total h0]
      simp
    · have h0' : flag t = false := by simpa using h0
      rw [process_images_go_cons cfg flag cb inp name rest t idx total h0']
      by_cases h1 : flag (t + 1) = true
      · have hrest := process_images_go_stops cfg flag cb none rest (t + 2) (idx + 1)
          total (hmono (t + 1) (t + 2) (by omega) h1)
        refine ⟨0, by simp, Or.inr ⟨inp, name, rest, rfl, ?_⟩⟩
        rw [if_neg (by simp [h1]), hrest]
        simp [process_single_result, h1]
      · have h1' : flag (t + 1) = false := by simpa using h1
        cases hfw : find_word_in_image cfg inp with
        | none =>
          rw [if_neg (by simp [hfw])]
          obtain ⟨k, hk, hsh⟩ := ih (t + 2) (idx + 1) total
          refine ⟨k + 1, by simpa using hk, ?_⟩
          rcases hsh with hres | ⟨inpk, namek, rest', hdropk, hres⟩
          · refine Or.inl ?_
            rw [hres]
            simp [process_single_result, runFull, hfw, h1']
          · refine Or.inr ⟨inpk, namek, rest', by simpa using hdropk, ?_⟩
            rw [hres]
            simp [process_single_result, runFull, hfw, h1']
        | some pr =>
          rw [if_pos (by simp [hfw, h1'])]
          by_cases h2 : flag (t + 2) = true
          · have hrest := process_images_go_stops cfg flag cb none rest (t + 3)
              (idx + 1) total (hmono (t + 2) (t + 3) (by omega) h2)
            refine ⟨0, by simp, Or.inr ⟨inp, name, rest, rfl, ?_⟩⟩
            rw [hrest]
            simp [process_single_result, h1', h2, hfw]
          · have h2' : flag (t + 2) = false := by simpa using h2
            obtain ⟨k, hk, hsh⟩ := ih (t + 3) (idx + 1) total
            refine ⟨k + 1, by simpa using hk, ?_⟩
            rcases hsh with hres | ⟨inpk, namek, rest', hdropk, hres⟩
            · refine Or.inl ?_
              rw [hres]
              simp [process_single_result, runFull, h1', h2']
            · refine Or.inr ⟨inpk, namek, rest', by simpa using hdropk, ?_⟩
              rw [hres]
              simp [process_single_result, runFull, h1', h2']

/-- A fault injected at any iteration of a never-cancelled run aborts the
whole batch: the accumulated results are discarded and an error escapes. -/
theorem process_images_go_fault (cfg : AlignerCfg) (cb : Except Str Unit) :
    ∀ (items : List (ImageInput × Str)) (t idx total j : Nat), idx ≤ j →
      j < idx + items.length →
      process_images_go cfg (fun _ => false) cb (some j) items t idx total =
        .error "Processing failed".data := by
  intro items
  induction items with
  | nil =>
    intro t idx total j hj1 hj2
    simp at hj2
    omega
  | cons it rest ih =>
    obtain ⟨inp, name⟩ := it
    intro t idx total j hj1 hj2
    simp only [process_images_go]
    rw [if_neg (by simp)]
    by_cases hje : j = idx
    · rw [if_pos (by simp [hje])]
    · rw [if_neg (by simp; omega)]
      have hrec := fun t' => ih t' (idx + 1) total j (by omega)
        (by simp at hj2 ⊢; omega)
      rw [hrec]

/-- The batch outcome never depends on what the progress callback does: the
callback runs inside `try/except` and only its logged trace differs. -/
theorem process_images_go_cb_irrel (cfg : AlignerCfg) (flag : Nat → Bool)
    (fault : Option Nat) (cb cb' : Except Str Unit) :
    ∀ (items : List (ImageInput × Str)) (t idx total : Nat),
      process_images_go cfg flag cb fault items t idx total =
        process_images_go cfg flag cb' fault items t idx total := by
  intro items
  induction items with
  | nil => intro t idx total; rfl
  | cons it rest ih =>
    obtain ⟨inp, name⟩ := it
    intro t idx total
    simp only [process_images_go, process_single_trace]
    rw [ih]

/-- Claim C4 counterexample: with one queued image and a cancellation flag
that becomes set between the loop-level check and the item's first in-item
check, the unprocessed item is NOT absent: it is recorded as a
`(false, name, "Processing cancelled")` failure entry, which differs from
its full processing result. -/
theorem C4_cancellation_counterexample :
    process_images (mkAligner "warp".data 8 6 2 true "white".data)
      (fun t => decide (1 ≤ t)) (.ok ()) none
      [(.decoded ⟨4, 4⟩ [⟨"warp".data, 1, 1, 9, 9, 50⟩], "a".data)] =
      .ok [(false, "a".data, cancelMsg)] ∧
    (false, "a".data, cancelMsg) ≠
      runFull (mkAligner "warp".data 8 6 2 true "white".data)
        (.decoded ⟨4, 4⟩ [⟨"warp".data, 1, 1, 9, 9, 50⟩], "a".data) := by
  constructor
  · decide
  · decide

/-- Claim C4 as amended: under a monotone cancellation flag a fault-free
batch returns the full processing of a prefix of the input, with every later
item absent — except that an item whose in-item check is the first to
observe the flag is recorded as a single trailing
`(false, name, "Processing cancelled")` failure entry; when the flag is
observed at the loop-level check (e.g. set after an item completes), the
result is exactly the processed prefix with all remaining items absent. -/
theorem C4_cancellation (cfg : AlignerCfg) (flag : Nat → Bool)
    (cb : Except Str Unit) (items : List (ImageInput × Str))
    (hmono : ∀ i j : Nat, i ≤ j → flag i = true → flag j = true) :
    ∃ k, k ≤ items.length ∧
      (process_images cfg flag cb none items =
          .ok ((items.take k).map (runFull cfg)) ∨
        ∃ inpk namek rest', items.drop k = (inpk, namek) :: rest' ∧
          process_images cfg flag cb none items =
            .ok ((items.take k).map (runFull cfg) ++ [(false, namek, cancelMsg)])) :=
  process_images_go_shape cfg flag cb hmono items 0 0 items.length

/-- Witness for C4: ten queued images, each of which would match, with the
flag set after the third item completes (poll index 9): the run returns
exactly the three processed entries and items 4 to 10 are absent. -/
theorem C4_cancellation_witness :
    process_images (mkAligner "warp".data 8 6 2 true "white".data)
      (fun t => decide (9 ≤ t)) (.ok ()) none
      (List.replicate 10
        (.decoded ⟨4, 4⟩ [⟨"warp".data, 1, 1, 9, 9, 50⟩], "a".data)) =
      .ok (List.replicate 3 (true, "a".data, "warp".data)) ∧
    ∃ k, k ≤ (List.replicate 10
        ((.decoded ⟨4, 4⟩ [⟨"warp".data, 1, 1, 9, 9, 50⟩], "a".data) :
          ImageInput × Str)).length ∧
      (process_images (mkAligner "warp".data 8 6 2 true "white".data)
          (fun t => decide (9 ≤ t)) (.ok ()) none
          (List.replicate 10
            (.decoded ⟨4, 4⟩ [⟨"warp".data, 1, 1, 9, 9, 50⟩], "a".data)) =
          .ok (((List.replicate 10
            ((.decoded ⟨4, 4⟩ [⟨"warp".data, 1, 1, 9, 9, 50⟩], "a".data) :
              ImageInput × Str)).take k).map
            (runFull (mkAligner "warp".data 8 6 2 true "white".data))) ∨
        ∃ inpk namek rest',
          (List.replicate 10
            ((.decoded ⟨4, 4⟩ [⟨"warp".data, 1, 1, 9, 9, 50⟩], "a".data) :
              ImageInput × Str)).drop k = (inpk, namek) :: rest' ∧
          process_images (mkAligner "warp".data 8 6 2 true "white".data)
              (fun t => decide (9 ≤ t)) (.ok ()) none
              (List.replicate 10
                (.decoded ⟨4, 4⟩ [⟨"warp".data, 1, 1, 9, 9, 50⟩], "a".data)) =
            .ok ((((List.replicate 10
              ((.decoded ⟨4, 4⟩ [⟨"warp".data, 1, 1, 9, 9, 50⟩], "a".data) :
                ImageInput × Str)).take k).map
              (runFull (mkAligner "warp".data 8 6 2 true "white".data))) ++
              [(false, namek, cancelMsg)])) := by
  refine ⟨by decide, ?_⟩
  exact C4_cancellation (mkAligner "warp".data 8 6 2 true "white".data)
    (fun t => decide (9 ≤ t)) (.ok ())
    (List.replicate 10 (.decoded ⟨4, 4⟩ [⟨"warp".data, 1, 1, 9, 9, 50⟩], "a".data))
    (fun i j hij hi => by simp at hi ⊢; omega)

/-- Claim C9 counterexample: a fatal fault in the outer loop does NOT hand
the caller the ordered result list — the raised `ProcessingError` escapes
and no list is returned at all. -/
theorem C9_exit_counterexample :
    process_images (mkAligner "warp".data 8 6 2 true "white".data)
      (fun _ => false) (.ok ()) (some 0)
      [(.decoded ⟨4, 4⟩ [⟨"warp".data, 1, 1, 9, 9, 50⟩], "a".data)] =
      .error "Processing failed".data ∧
    (process_images (mkAligner "warp".data 8 6 2 true "white".data)
      (fun _ => false) (.ok ()) (some 0)
      [(.decoded ⟨4, 4⟩ [⟨"warp".data, 1, 1, 9, 9, 50⟩], "a".data)]).toOption =
      none := by
  constructor
  · decide
  · decide

/-- Claim C9 as amended: on natural completion or cancellation the caller
receives the ordered, append-only result list (the full processing of an
input prefix, possibly closed by one cancellation entry), whose success and
failure counts partition its length; on a fatal fault in the outer loop a
`ProcessingError` is raised instead and no result list is returned. -/
theorem C9_exit_results (cfg : AlignerCfg) (cb : Except Str Unit)
    (items : List (ImageInput × Str)) (flag : Nat → Bool)
    (hmono : ∀ i j : Nat, i ≤ j → flag i = true → flag j = true) :
    (∃ k l, k ≤ items.length ∧
      process_images cfg flag cb none items = .ok l ∧
      (l = (items.take k).map (runFull cfg) ∨
        ∃ inpk namek rest', items.drop k = (inpk, namek) :: rest' ∧
          l = (items.take k).map (runFull cfg) ++ [(false, namek, cancelMsg)]) ∧
      (batch_counts l).1 + (batch_counts l).2 = l.length) ∧
    (∀ j, j < items.length →
      process_images cfg (fun _ => false) cb (some j) items =
        .error "Processing failed".data) := by
  constructor
  · obtain ⟨k, hk, hsh⟩ := process_images_go_shape cfg flag cb hmono items 0 0 items.length
    have hcount : ∀ l : List Entry, (batch_counts l).1 + (batch_counts l).2 = l.length := by
      intro l
      have := List.countP_le_length (fun r => r.1) (l := l)
      simp [batch_counts]
      omega
    rcases hsh with hres | ⟨inpk, namek, rest', hdropk, hres⟩
    · exact ⟨k, _, hk, hres, Or.inl rfl, hcount _⟩
    · exact ⟨k, _, hk, hres, Or.inr ⟨inpk, namek, rest', hdropk, rfl⟩, hcount _⟩
  · intro j hj
    exact process_images_go_fault cfg cb items 0 0 items.length j (by omega) (by omega)

/-- Witness for C9: a single queued image with no cancellation; the
fault-free run returns the one-entry list, and a fault at iteration 0
returns the error instead. -/
theorem C9_exit_results_witness :
    process_images (mkAligner "warp".data 8 6 2 true "white".data)
      (fun _ => false) (.ok ()) (some 0)
      [(.decoded ⟨4, 4⟩ [⟨"warp".data, 1, 1, 9, 9, 50⟩], "a".data)] =
      .error "Processing failed".data :=
  (C9_exit_results (mkAligner "warp".data 8 6 2 true "white".data) (.ok ())
    [(.decoded ⟨4, 4⟩ [⟨"warp".data, 1, 1, 9, 9, 50⟩], "a".data)]
    (fun _ => false) (fun _ _ _ h => h)).2 0 (by decide)

/-- Claim C7 counterexample: for a concrete successfully-matched item the
progress sink fires FIRST — before the OCR call and the write — not after
the item completes: its event is the head of the trace and the OCR event
follows it. -/
theorem C7_progress_counterexample :
    (process_single_trace (mkAligner "warp".data 8 6 2 true "white".data)
        false false (.ok ()) (.decoded ⟨4, 4⟩ [⟨"warp".data, 1, 1, 9, 9, 50⟩])
        "a.jpg".data 1 1).2 =
      [.progress 1 1 "a.jpg".data ("Processing ".data ++ "a.jpg".data),
       .ocr "a.jpg".data,
       .wrote (output_filename (mkAligner "warp".data 8 6 2 true "white".data)
        "a.jpg".data)] ∧
    (process_single_trace (mkAligner "warp".data 8 6 2 true "white".data)
        false false (.ok ()) (.decoded ⟨4, 4⟩ [⟨"warp".data, 1, 1, 9, 9, 50⟩])
        "a.jpg".data 1 1).2.head? ≠ some (Ev.ocr "a.jpg".data) ∧
    Ev.ocr "a.jpg".data ∈
      (process_single_trace (mkAligner "warp".data 8 6 2 true "white".data)
        false false (.ok ()) (.decoded ⟨4, 4⟩ [⟨"warp".data, 1, 1, 9, 9, 50⟩])
        "a.jpg".data 1 1).2.tail := by
  refine ⟨by decide, by decide, by decide⟩

/-- Claim C7 as amended: for every non-cancelled item the progress sink is
invoked once at the START of the item — its `(index, total, filename,
"Processing " + filename)` event heads the trace, before the OCR work — a
raising callback only adds a logged error event, and neither the item's
result entry nor the batch outcome depends on what the callback does. -/
theorem C7_progress_sink (cfg : AlignerCfg) (cb cb' : Except Str Unit)
    (inp : ImageInput) (name : Str) (i total : Nat) (flagMid : Bool) (e : Str) :
    (process_single_trace cfg false flagMid cb inp name i total).2.head? =
      some (.progress i total name ("Processing ".data ++ name)) ∧
    Ev.cbError e ∈
      (process_single_trace cfg false flagMid (.error e) inp name i total).2 ∧
    (process_single_trace cfg false flagMid cb inp name i total).1 =
      (process_single_trace cfg false flagMid cb' inp name i total).1 ∧
    (∀ (flag : Nat → Bool) (fault : Option Nat)
        (items : List (ImageInput × Str)),
      process_images cfg flag cb fault items =
        process_images cfg flag cb' fault items) := by
  refine ⟨?_, ?_, rfl, ?_⟩
  · cases cb <;> simp [process_single_trace, report_progress]
  · simp [process_single_trace, report_progress]
  · intro flag fault items
    exact process_images_go_cb_irrel cfg flag fault cb cb' items 0 0 items.length

end Aligner
